import Mathlib

namespace AINews

/-- Python strings are modelled as lists of characters. -/
abbrev Chars := List Char

/-- Python `str.split(sep)` for a one-character separator. -/
def splitOnChar (sep : Char) : Chars → List Chars
  | [] => [[]]
  | c :: cs =>
    if c = sep then [] :: splitOnChar sep cs
    else
      match splitOnChar sep cs with
      | [] => [[c]]
      | l :: ls => (c :: l) :: ls

/-- Python `str.split('\n')`. -/
def splitLines : Chars → List Chars :=
  splitOnChar '\n'

/-- Join a list of lines with a newline separator (inverse of `splitLines`). -/
def joinLines : List Chars → Chars
  | [] => []
  | [l] => l
  | l :: l2 :: ls => l ++ '\n' :: joinLines (l2 :: ls)

/-- Every line gets a terminating newline, and the results are concatenated. -/
def joinTerm (ls : List Chars) : Chars :=
  (ls.map (fun l => l ++ ['\n'])).flatten

/-- The accumulation loop in `FeishuSender._split_content`: fold the source lines
into `current`, closing a chunk whenever the next line (plus its newline) would
overflow `maxLength`. -/
def splitLoop (maxLength : Nat) (chunks : List Chars) (current : Chars) :
    List Chars → List Chars
  | [] => if current = [] then chunks else chunks ++ [current]
  | line :: rest =>
    if maxLength < current.length + line.length + 1 then
      splitLoop maxLength (chunks ++ [current]) (line ++ ['\n']) rest
    else
      splitLoop maxLength chunks (current ++ (line ++ ['\n'])) rest

/-- `FeishuSender._split_content`: return `[content]` when it fits, otherwise
split on line boundaries via `splitLoop`. -/
def split_content (content : Chars) (maxLength : Nat) : List Chars :=
  if content.length ≤ maxLength then [content]
  else splitLoop maxLength [] [] (splitLines content)

/-- Python `str.strip()`: drop whitespace from both ends. -/
def pyStrip (s : Chars) : Chars :=
  ((s.dropWhile Char.isWhitespace).reverse.dropWhile Char.isWhitespace).reverse

/-- Python `needle in haystack` (substring membership). -/
def containsSubstr (haystack needle : Chars) : Bool :=
  match haystack with
  | [] => needle.isEmpty
  | _ :: rest => needle.isPrefixOf haystack || containsSubstr rest needle

/-- Scanner for `countSubstr`: `skip` is the number of characters still to be
consumed by the previously matched occurrence. -/
def countSubstrAux (needle : Chars) : Nat → Chars → Nat
  | _, [] => 0
  | Nat.succ k, _ :: rest => countSubstrAux needle k rest
  | 0, c :: rest =>
    if needle.isPrefixOf (c :: rest) then
      1 + countSubstrAux needle (needle.length - 1) rest
    else countSubstrAux needle 0 rest

/-- Python `str.count(needle)`: non-overlapping occurrences, scanned from the
left (for a non-empty `needle`). -/
def countSubstr (needle : Chars) (s : Chars) : Nat :=
  countSubstrAux needle 0 s

/-- The literal `"## 拓展阅读"` used by the substring guard of
`FeishuSender._limit_reference_links`. -/
def refMarker : Chars := ("## 拓展阅读").toList

/-- The section name `"拓展阅读"`. -/
def refName : Chars := ("拓展阅读").toList

/-- Whether one line matches the regex `^##\s+拓展阅读.*$`. -/
def isRefHeader (l : Chars) : Bool :=
  match l with
  | c1 :: c2 :: rest =>
    c1 == '#' && c2 == '#' &&
      !(rest.takeWhile Char.isWhitespace).isEmpty &&
      refName.isPrefixOf (rest.dropWhile Char.isWhitespace)
  | _ => false

/-- Whether one line matches the regex `^###\s+.+$`. -/
def isSubHeader (l : Chars) : Bool :=
  match l with
  | c1 :: c2 :: c3 :: rest =>
    c1 == '#' && c2 == '#' && c3 == '#' &&
      !(rest.takeWhile Char.isWhitespace).isEmpty &&
      !(rest.dropWhile Char.isWhitespace).isEmpty
  | _ => false

/-- `re.split(r'(^PAT$)', s, flags=re.MULTILINE)` for a full-line pattern `p`
that cannot match the empty string, expressed on the line decomposition of `s`:
the matched lines become their own parts, and the newline before (after) a
matched line stays with the preceding (following) part. -/
def reSplitLines (p : Chars → Bool) : List Chars → List Chars
  | [] => [[]]
  | [l] => if p l then [[], l, []] else [l]
  | l :: l2 :: rest =>
    match reSplitLines p (l2 :: rest) with
    | [] => []
    | r :: rs =>
      if p l then [] :: l :: ('\n' :: r) :: rs
      else (l ++ '\n' :: r) :: rs

/-- A line whose stripped form starts with `*` (a reference bullet). -/
def isLinkLine (l : Chars) : Bool :=
  match pyStrip l with
  | c :: _ => c == '*'
  | [] => false

/-- A line whose stripped form is non-empty and does not start with `*`. -/
def isNonLinkLine (l : Chars) : Bool :=
  !isLinkLine l && !(pyStrip l).isEmpty

/-- The loop body of `FeishuSender._limit_reference_links` for one
`### sub-heading` and its body: keep at most `limit` bullet lines, then the
non-bullet non-blank lines, each group newline-joined and newline-terminated,
plus a final blank line. -/
def processSubsection (limit : Nat) (header body : Chars) : Chars :=
  let lines := splitLines body
  let links := lines.filter isLinkLine
  let nonLinks := lines.filter isNonLinkLine
  header ++ '\n' :: (joinLines (links.take limit) ++ '\n' ::
    ((if nonLinks.isEmpty then [] else joinLines nonLinks ++ ['\n']) ++ ['\n']))

/-- `for i in range(1, len(sub_parts), 2)` over the alternating
(header, body) tail of the `###` split. -/
def processPairs (limit : Nat) : List Chars → Chars
  | [] => []
  | [h] => processSubsection limit h []
  | h :: b :: rest => processSubsection limit h b ++ processPairs limit rest

/-- `FeishuSender._limit_reference_links`. -/
def limit_reference_links (content : Chars) (limit : Nat) : Chars :=
  if containsSubstr content refMarker then
    match (reSplitLines isRefHeader (splitLines content)).reverse with
    | refBody :: refHeader :: r1 :: restRev =>
      let mainContent := ((r1 :: restRev).reverse).flatten
      match reSplitLines isSubHeader (splitLines refBody) with
      | [] => mainContent ++ refHeader
      | first :: restSub => mainContent ++ refHeader ++ first ++ processPairs limit restSub
    | _ => content
  else content

/-- The `re.split` parts of the `## 拓展阅读` dissection. -/
def refParts (content : Chars) : List Chars :=
  reSplitLines isRefHeader (splitLines content)

/-- `"".join(parts[:-2])`: everything before the last further-reading header. -/
def beforeRef (content : Chars) : Chars :=
  (refParts content).dropLast.dropLast.flatten

/-- `parts[-2]`: the matched further-reading header line. -/
def refHeaderOf (content : Chars) : Chars :=
  (refParts content).dropLast.getLastD []

/-- `parts[-1]`: the text after the further-reading header line. -/
def refBodyOf (content : Chars) : Chars :=
  (refParts content).getLastD []

/-- Lines matching the markdown second-level-heading shape `^## `. -/
def h2Pat : Chars := ("## ").toList

/-- The number of lines that are second-level headings. -/
def h2LineCount (c : Chars) : Nat :=
  (splitLines c).countP (fun l => h2Pat.isPrefixOf l)

/-- Result of one `httpx` POST: either the transport layer fails (timeout,
connection error, non-2xx via `raise_for_status`) or a JSON body with an
application-level `code` comes back. -/
inductive PostResult where
  | transportError (msg : String)
  | response (code : Int)
deriving DecidableEq

/-- Whether one chunk delivery is logged as a success (`code == 0`); every
other outcome is caught and logged inside the loop body. -/
def chunkOk : PostResult → Bool
  | .response 0 => true
  | _ => false

/-- The per-chunk delivery loop of `FeishuSender.send_markdown`: one POST per
chunk, each outcome handled in place, never aborting the loop. -/
def sendChunks (post : Nat → PostResult) : List Chars → Nat → List Bool
  | [], _ => []
  | _ :: rest, i => chunkOk (post i) :: sendChunks post rest (i + 1)

/-- `FeishuSender.send_markdown`, as the list of per-chunk delivery outcomes
(one entry per HTTP request performed).  `convert` abstracts
`_convert_markdown_to_feishu_format`, applied before chunking; `title` only
decorates the card and is kept for signature fidelity. -/
def send_markdown (convert : Chars → Chars) (post : Nat → PostResult)
    (webhookUrl title content : Chars) : List Bool :=
  if webhookUrl.isEmpty then []
  else
    let _ := title
    sendChunks post (split_content (convert content) 40000) 0

/-- The wire payload of `FeishuSender.send_to_flow`. -/
structure FlowPayload where
  title : String
  totalTitles : String
  timestamp : String
  reportType : String
  text : Chars
deriving DecidableEq

/-- `FeishuSender.send_to_flow`, as the list of HTTP requests performed. -/
def send_to_flow (post : PostResult) (webhookUrl : Chars) (p : FlowPayload) :
    List FlowPayload :=
  if webhookUrl.isEmpty then []
  else
    let _ := post
    [p]

/-- One news item as the pipeline sees it (only `source` is inspected). -/
structure Item where
  source : String
deriving DecidableEq

/-- Payload of one `StepEntry`, matching the `type` of `_add_step`. -/
inductive StepContent where
  | text (s : String)
  | chart (counts : List (String × Nat))
  | dataframe (rows : List (String × Nat))
deriving DecidableEq

/-- One record of `pipeline_steps` (the wall-clock timestamp is exogenous
I/O and is not modelled). -/
structure StepEntry where
  kind : String
  content : StepContent
  label : Option String
deriving DecidableEq

/-- One outbound notification from the pipeline run. -/
inductive Send where
  | flow (webhook : Chars) (title : String) (totalTitles : Nat) (timestamp : String)
      (reportType : String) (text : Chars)
  | markdown (webhook : Chars) (title : String) (content : Chars)
deriving DecidableEq

/-- The mutable fields of `SchedulerManager` touched by `run_pipeline`. -/
structure SchedState where
  feishuWebhooks : List Chars
  daysToCrawl : Nat
  isRunning : Bool
  currentStatus : String
  pipelineSteps : List StepEntry
deriving DecidableEq

/-- The external collaborators of one run: database, crawler, analysis agent
stages and the per-destination delivery outcome (`sendExc i` is the exception
raised, if any, while sending to the `i`-th configured webhook). -/
structure PipelineEnv where
  today : String
  nowTs : String
  initDb : Except String Unit
  runAllCrawlers : Except String Unit
  fetchArticles : Except String (List Item)
  step1Filter : List Item → Except String (List Item)
  step2Cluster : List Item → Except String (List Item)
  step3Deduplicate : List Item → Except String (List Item)
  step4Rank : List Item → Except String (List Item)
  step5FetchArxiv : List Item → Except String (List String)
  generateFinalReport : List Item → List String → Except String (Option Chars)
  saveReportToFile : Chars → Except String String
  markArticlesAsReported : List Item → String → Except String Unit
  sendExc : Nat → Option String

def kindText : String := "text"
def kindInfo : String := "info"
def kindSuccess : String := "success"
def kindError : String := "error"
def kindChart : String := "chart"
def kindDataframe : String := "dataframe"

def statusIdle : String := "Idle"
def statusStarting : String := "Starting pipeline..."
def statusInitDb : String := "Initializing Database..."
def statusCrawlers : String := "Running Crawlers..."
def statusGenerating : String := "Generating Report..."
def statusSending : String := "Sending to Feishu..."
def statusCompleted : String := "Completed"
def statusErrorHead : String := "Error: "

def msgStart : String := "🚀 开始执行定时任务流水线..."
def msgInitDb : String := "📥 正在初始化数据库..."
def msgCrawl : String := "🕷️ 正在运行爬虫采集数据..."
def msgCrawlDone : String := "✅ 数据采集完成"
def msgGenReport : String := "🤖 正在生成智能报告..."
def msgFetchDb : String := "📥 正在从数据库获取数据..."
def msgNoData : String := "❌ 未找到数据！"
def msgGotData (n : Nat) : String := "✅ 获取到 " ++ toString n ++ " 条原始数据"
def chartLabel : String := "数据来源分布"
def msgFiltering : String := "🔍 正在进行智能过滤 (Filtering)..."
def msgFiltered (n nf : Nat) : String :=
  "✅ 过滤后剩余: " ++ toString nf ++ " 条 (剔除 " ++ toString ((n : Int) - (nf : Int)) ++ " 条)"
def msgClustering : String := "🧩 正在进行归类 (Clustering)..."
def msgClustered : String := "✅ 归类完成"
def msgDeduping : String := "🧹 正在进行去重 (Deduplication)..."
def msgDeduped (d : Nat) : String := "✅ 去重后剩余: " ++ toString d ++ " 条"
def msgRanking : String := "🏆 正在进行评分排序 (Ranking)..."
def msgRanked : String := "✅ 排序完成"
def funnelLabel : String := "处理漏斗数据"
def msgArxiv : String := "📄 正在获取 arXiv 论文..."
def msgArxivDone (p : Nat) : String := "✅ 获取到 " ++ toString p ++ " 篇相关论文"
def msgWriting : String := "✍️ 正在撰写最终报告..."
def msgSaving : String := "💾 正在保存报告并更新数据库..."
def msgSaved (path : String) : String := "✅ 报告已保存至: " ++ path
def msgSendingTo (k : Nat) : String := "📤 正在发送至 " ++ toString k ++ " 个飞书群..."
def msgSendFail (e : String) : String := "⚠️ 发送至某个飞书群失败: " ++ e
def msgSendDone : String := "✅ 飞书推送完成"
def msgAllDone : String := "🎉 定时任务全部执行完成！"
def msgFail (e : String) : String := "❌ 任务失败: " ++ e

def callInitDb : String := "init_db"
def callCrawlers : String := "run_all_crawlers"
def callFetch : String := "fetch_articles_from_db"
def callFilter : String := "step1_filter"
def callCluster : String := "step2_cluster"
def callDedup : String := "step3_deduplicate"
def callRank : String := "step4_rank"
def callArxiv : String := "step5_fetch_arxiv_papers"
def callGenerate : String := "generate_final_report"
def callSave : String := "save_report_to_file"
def callMark : String := "mark_articles_as_reported"

/-- `SchedulerManager._add_step`. -/
def addStep (s : SchedState) (content : StepContent) (kind : String)
    (label : Option String) : SchedState :=
  { s with pipelineSteps := s.pipelineSteps ++ [⟨kind, content, label⟩] }

/-- `source_counts[s] = source_counts.get(s, 0) + 1`, preserving the
insertion order of a Python dict. -/
def bumpSource : List (String × Nat) → String → List (String × Nat)
  | [], src => [(src, 1)]
  | (k, v) :: rest, src =>
    if k = src then (k, v + 1) :: rest else (k, v) :: bumpSource rest src

/-- The source-distribution chart data of the run. -/
def countsBySource (items : List Item) : List (String × Nat) :=
  items.foldl (fun acc it => bumpSource acc it.source) []

/-- The funnel dataframe rows `Raw/Filtered/Deduplicated`. -/
def funnelRows (n nf nd : Nat) : List (String × Nat) :=
  [("Raw", n), ("Filtered", nf), ("Deduplicated", nd)]

/-- Python truthiness of `report_content` (`None` and `""` are falsy). -/
def reportTruthy : Option Chars → Bool
  | some r => !r.isEmpty
  | none => false

/-- `"Daily Report" if days == 1 else f"{days}-Day Report"`. -/
def reportTypeLabel (days : Nat) : String :=
  if days = 1 then "Daily Report" else toString days ++ "-Day Report"

/-- The URL marker selecting flow-style destinations. -/
def flowPat : Chars := ("flow/api/trigger-webhook").toList

def flowDocTitle (days : Nat) (today : String) : String :=
  "AI News " ++ reportTypeLabel days ++ " - " ++ today

def mdDocTitle (today : String) : String := "AI 前沿动态速报 (" ++ today ++ ")"

def errFlowTitle (today : String) : String := "AI News Error Report - " ++ today
def errMdTitle : String := "AI News Report - Error"
def errReportType : String := "Error Report"
def pipelineFailedText (e : String) : Chars := ("Pipeline failed: " ++ e).toList

/-- The notification built for one webhook in the success path: flow-style
when the URL contains the flow marker (`total_titles` is
`report_content.count("## ")`, the text is the raw report), card-style
markdown otherwise. -/
def sendFor (env : PipelineEnv) (days : Nat) (report : Chars) (w : Chars) : Send :=
  if containsSubstr w flowPat then
    Send.flow w (flowDocTitle days env.today) (countSubstr h2Pat report)
      env.nowTs (reportTypeLabel days) report
  else
    Send.markdown w (mdDocTitle env.today) report

/-- The `for webhook in self.feishu_webhooks` delivery loop of the success
path: every webhook is attempted; an exception from an attempt only appends
an `error` step and the loop goes on. -/
def sendLoop (env : PipelineEnv) (days : Nat) (report : Chars) :
    List Chars → Nat → SchedState → SchedState × List Send
  | [], _, s => (s, [])
  | w :: ws, i, s =>
    let req := sendFor env days report w
    let s1 :=
      match env.sendExc i with
      | none => s
      | some e => addStep s (.text (msgSendFail e)) kindError none
    let out := sendLoop env days report ws (i + 1) s1
    (out.1, req :: out.2)

/-- The best-effort error-notification loop of the `except` branch: one
attempt per webhook, every failure swallowed by the bare `except`. -/
def errorSendLoop (env : PipelineEnv) (e : String) : List Chars → List Send
  | [] => []
  | w :: ws =>
    (if containsSubstr w flowPat then
      Send.flow w (errFlowTitle env.today) 0 env.nowTs errReportType (pipelineFailedText e)
    else
      Send.markdown w errMdTitle (pipelineFailedText e)) :: errorSendLoop env e ws

/-- The `except Exception as e` branch of `run_pipeline`. -/
def handleError (env : PipelineEnv) (s : SchedState) (e : String) :
    SchedState × List Send :=
  let s1 := { s with currentStatus := statusErrorHead ++ e }
  let s2 := addStep s1 (.text (msgFail e)) kindError none
  if s2.feishuWebhooks.isEmpty then (s2, [])
  else (s2, errorSendLoop env e s2.feishuWebhooks)

/-- The tail of the success path: `Completed` status plus the terminal step. -/
def completeRun (s : SchedState) (sends : List Send) (cs : List String) :
    SchedState × List Send × List String × Option String :=
  let s1 := { s with currentStatus := statusCompleted }
  (addStep s1 (.text msgAllDone) kindSuccess none, sends, cs, none)

/-- The `if self.feishu_webhooks and report_content:` delivery phase (the
report is already known to be truthy here). -/
def sendPhase (env : PipelineEnv) (s : SchedState) (cs : List String) (rep : Chars) :
    SchedState × List Send × List String × Option String :=
  if s.feishuWebhooks.isEmpty then completeRun s [] cs
  else
    let s1 := { s with currentStatus := statusSending }
    let s2 := addStep s1 (.text (msgSendingTo s1.feishuWebhooks.length)) kindText none
    let out := sendLoop env s2.daysToCrawl rep s2.feishuWebhooks 0 s2
    completeRun (addStep out.1 (.text msgSendDone) kindSuccess none) out.2 cs

/-- Lines 212-251 of `run_pipeline`: save the report when truthy, then the
delivery phase, then completion. -/
def afterReport (env : PipelineEnv) (s : SchedState) (cs : List String)
    (ranked : List Item) (reportOpt : Option Chars) :
    SchedState × List Send × List String × Option String :=
  if reportTruthy reportOpt then
    let rep := reportOpt.getD []
    let s1 := addStep s (.text msgSaving) kindText none
    let cs1 := cs ++ [callSave]
    match env.saveReportToFile rep with
    | .error e => (s1, [], cs1, some e)
    | .ok path =>
      let cs2 := cs1 ++ [callMark]
      match env.markArticlesAsReported ranked path with
      | .error e => (s1, [], cs2, some e)
      | .ok _ =>
        sendPhase env (addStep s1 (.text (msgSaved path)) kindSuccess none) cs2 rep
  else completeRun s [] cs

/-- Stage 11 of the `try` block: write the final report (then save, deliver
and complete via `afterReport`). -/
def phaseGenerate (env : PipelineEnv) (s : SchedState) (cs : List String)
    (ranked : List Item) (papers : List String) :
    SchedState × List Send × List String × Option String :=
  let s := addStep s (.text (msgArxivDone papers.length)) kindInfo none
  let s := addStep s (.text msgWriting) kindText none
  let cs := cs ++ [callGenerate]
  match env.generateFinalReport ranked papers with
  | .error e => (s, [], cs, some e)
  | .ok reportOpt => afterReport env s cs ranked reportOpt

/-- Stage 9-10 of the `try` block: funnel dataframe and arXiv references. -/
def phaseArxiv (env : PipelineEnv) (s : SchedState) (cs : List String)
    (nRaw nFiltered nDeduped : Nat) (ranked : List Item) :
    SchedState × List Send × List String × Option String :=
  let s := addStep s (.text msgRanked) kindInfo none
  let s := addStep s (.dataframe (funnelRows nRaw nFiltered nDeduped))
    kindDataframe (some funnelLabel)
  let s := addStep s (.text msgArxiv) kindText none
  let cs := cs ++ [callArxiv]
  match env.step5FetchArxiv ranked with
  | .error e => (s, [], cs, some e)
  | .ok papers => phaseGenerate env s cs ranked papers

/-- Stage 8 of the `try` block: ranking. -/
def phaseRank (env : PipelineEnv) (s : SchedState) (cs : List String)
    (nRaw nFiltered : Nat) (deduped : List Item) :
    SchedState × List Send × List String × Option String :=
  let s := addStep s (.text (msgDeduped deduped.length)) kindInfo none
  let s := addStep s (.text msgRanking) kindText none
  let cs := cs ++ [callRank]
  match env.step4Rank deduped with
  | .error e => (s, [], cs, some e)
  | .ok ranked => phaseArxiv env s cs nRaw nFiltered deduped.length ranked

/-- Stage 7 of the `try` block: deduplication. -/
def phaseDedup (env : PipelineEnv) (s : SchedState) (cs : List String)
    (nRaw nFiltered : Nat) (clustered : List Item) :
    SchedState × List Send × List String × Option String :=
  let s := addStep s (.text msgClustered) kindInfo none
  let s := addStep s (.text msgDeduping) kindText none
  let cs := cs ++ [callDedup]
  match env.step3Deduplicate clustered with
  | .error e => (s, [], cs, some e)
  | .ok deduped => phaseRank env s cs nRaw nFiltered deduped

/-- Stage 6 of the `try` block: clustering. -/
def phaseCluster (env : PipelineEnv) (s : SchedState) (cs : List String)
    (nRaw : Nat) (filtered : List Item) :
    SchedState × List Send × List String × Option String :=
  let s := addStep s (.text (msgFiltered nRaw filtered.length)) kindInfo none
  let s := addStep s (.text msgClustering) kindText none
  let cs := cs ++ [callCluster]
  match env.step2Cluster filtered with
  | .error e => (s, [], cs, some e)
  | .ok clustered => phaseDedup env s cs nRaw filtered.length clustered

/-- Stages 4-5 of the `try` block: source chart and filtering. -/
def phaseFilter (env : PipelineEnv) (s : SchedState) (cs : List String)
    (newsItems : List Item) :
    SchedState × List Send × List String × Option String :=
  let s := addStep s (.text (msgGotData newsItems.length)) kindInfo none
  let s := addStep s (.chart (countsBySource newsItems)) kindChart (some chartLabel)
  let s := addStep s (.text msgFiltering) kindText none
  let cs := cs ++ [callFilter]
  match env.step1Filter newsItems with
  | .error e => (s, [], cs, some e)
  | .ok filtered => phaseCluster env s cs newsItems.length filtered

/-- Stage 3 of the `try` block: fetch the window items; an empty result
appends an `error` step and returns early with no exception raised. -/
def phaseFetch (env : PipelineEnv) (s : SchedState) (cs : List String) :
    SchedState × List Send × List String × Option String :=
  let s := addStep s (.text msgCrawlDone) kindSuccess none
  let s := { s with currentStatus := statusGenerating }
  let s := addStep s (.text msgGenReport) kindText none
  let s := addStep s (.text msgFetchDb) kindText none
  let cs := cs ++ [callFetch]
  match env.fetchArticles with
  | .error e => (s, [], cs, some e)
  | .ok newsItems =>
    if newsItems.isEmpty then
      (addStep s (.text msgNoData) kindError none, [], cs, none)
    else phaseFilter env s cs newsItems

/-- Stage 2 of the `try` block: the crawlers. -/
def phaseCrawl (env : PipelineEnv) (s : SchedState) (cs : List String) :
    SchedState × List Send × List String × Option String :=
  let s := { s with currentStatus := statusCrawlers }
  let s := addStep s (.text msgCrawl) kindText none
  let cs := cs ++ [callCrawlers]
  match env.runAllCrawlers with
  | .error e => (s, [], cs, some e)
  | .ok _ => phaseFetch env s cs

/-- The `try` block of `run_pipeline` (lines 148-251), phase by phase: the
returned `Option String` is the exception caught by the top-level `except`,
the list of strings is the audit trail of collaborator invocations. -/
def runTry (env : PipelineEnv) (s0 : SchedState) :
    SchedState × List Send × List String × Option String :=
  let s := { s0 with currentStatus := statusInitDb }
  let s := addStep s (.text msgInitDb) kindText none
  let cs := [callInitDb]
  match env.initDb with
  | .error e => (s, [], cs, some e)
  | .ok _ => phaseCrawl env s cs

/-- The acceptance transition of `run_pipeline`: `is_running` set, `pipeline_steps`
cleared to the start entry, status set to `Starting pipeline...`. -/
def startState (st : SchedState) : SchedState :=
  { st with
    isRunning := true
    pipelineSteps := [{ kind := kindInfo, content := .text msgStart, label := none }]
    currentStatus := statusStarting }

/-- `SchedulerManager.run_pipeline`: the concurrency guard, the `try` body,
the `except` branch and the `finally` (which only clears `is_running`).
Returns the final state, the notifications sent and the collaborator calls. -/
def run_pipeline (env : PipelineEnv) (st : SchedState) :
    SchedState × List Send × List String :=
  if st.isRunning then (st, [], [])
  else
    match runTry env (startState st) with
    | (s1, sends, cls, none) => ({ s1 with isRunning := false }, sends, cls)
    | (s1, sends, cls, some e) =>
      let out := handleError env s1 e
      ({ out.1 with isRunning := false }, sends ++ out.2, cls)

/-- Value of a digit string (assumes all characters are digits). -/
def digitsToNat (ds : Chars) : Nat :=
  ds.foldl (fun acc c => acc * 10 + (c.toNat - '0'.toNat)) 0

/-- Python `int(s)` for a `str` argument: optional surrounding whitespace,
optional sign, at least one digit; everything else raises `ValueError`,
modelled as `none`. -/
def pyInt (s : Chars) : Option Int :=
  match pyStrip s with
  | '-' :: ds =>
    if !ds.isEmpty && ds.all Char.isDigit then some (-(digitsToNat ds : Int)) else none
  | '+' :: ds =>
    if !ds.isEmpty && ds.all Char.isDigit then some (digitsToNat ds) else none
  | ds =>
    if !ds.isEmpty && ds.all Char.isDigit then some (digitsToNat ds) else none

/-- `hour, minute = map(int, time_str.split(':'))` followed by the
range validation `CronTrigger(hour=hour, minute=minute)` performs; `none`
models every `ValueError` path (unpacking arity, `int()` failure, range). -/
def parseCron (t : Chars) : Option (Nat × Nat) :=
  match (splitOnChar ':' t).map pyInt with
  | [some h, some m] =>
    if 0 ≤ h ∧ h ≤ 23 ∧ 0 ≤ m ∧ m ≤ 59 then some (h.toNat, m.toNat) else none
  | _ => none

/-- `f"daily_report_job_{i}"`. -/
def jobId (i : Nat) : String := "daily_report_job_" ++ toString i

/-- `f"Invalid time format: {time_str}"`. -/
def invalidTimeMsg (t : Chars) : String := "Invalid time format: " ++ String.mk t

/-- The `for i, time_str in enumerate(...)` loop of
`SchedulerManager._apply_schedule`, returning the scheduled jobs
`(id, hour, minute)` and the error log entries. -/
def apply_scheduleAux : Nat → List Chars → List (String × Nat × Nat) × List String
  | _, [] => ([], [])
  | i, t :: rest =>
    let out := apply_scheduleAux (i + 1) rest
    if t.isEmpty then out
    else
      match parseCron t with
      | some hm => ((jobId i, hm) :: out.1, out.2)
      | none => (out.1, invalidTimeMsg t :: out.2)

/-- `SchedulerManager._apply_schedule`: all previous jobs are removed first
(destructive rebuild), so the result is exactly the job set built from the
current list. -/
def apply_schedule (times : List Chars) : List (String × Nat × Nat) × List String :=
  apply_scheduleAux 0 times

/-- A concrete environment in which every collaborator succeeds. -/
def okReport : Chars := ("## A\nreport body\n").toList

/-- The report file path returned by the save collaborator in examples. -/
def outPath : String := "reports/out.md"

def itemA : Item := { source := "HN" }

def flowUrlEx : Chars := ("https://x/flow/api/trigger-webhook/1").toList

def cardUrlEx : Chars := ("https://x/card/2").toList

def okEnv : PipelineEnv :=
  { today := "2026-10-12"
    nowTs := "2026-10-12 08:00:00"
    initDb := .ok ()
    runAllCrawlers := .ok ()
    fetchArticles := .ok [itemA]
    step1Filter := fun items => .ok items
    step2Cluster := fun items => .ok items
    step3Deduplicate := fun items => .ok items
    step4Rank := fun items => .ok items
    step5FetchArxiv := fun _ => .ok []
    generateFinalReport := fun _ _ => .ok (some okReport)
    saveReportToFile := fun _ => .ok outPath
    markArticlesAsReported := fun _ _ => .ok ()
    sendExc := fun _ => none }

/-- An idle scheduler state with one flow-style and one card-style webhook. -/
def stIdle : SchedState :=
  { feishuWebhooks := [flowUrlEx, cardUrlEx]
    daysToCrawl := 1
    isRunning := false
    currentStatus := statusIdle
    pipelineSteps := [] }

/-- The environment of the empty-fetch scenario. -/
def envEmptyFetch : PipelineEnv := { okEnv with fetchArticles := .ok [] }

/-- A report with one `##` heading and one `###` heading. -/
def reportC8 : Chars := ("## A\n### B\n").toList

/-- The environment whose report exposes the `## `-count discrepancy. -/
def envC8 : PipelineEnv := { okEnv with generateFinalReport := fun _ _ => .ok (some reportC8) }

/-- An idle state with only the flow-style webhook configured. -/
def stFlowOnly : SchedState := { stIdle with feishuWebhooks := [flowUrlEx] }

/-- A `split_content` input whose first line has length exactly equal to the
bound. -/
def exC3 : Chars := ("abcde\nxx").toList

/-- A further-reading document with one sub-heading holding eight bullets. -/
def exC9 : Chars :=
  ("# T\nbody\n## 拓展阅读\n### Sub\n* a1\n* a2\n* a3\n* a4\n* a5\n* a6\n* a7\n* a8\n").toList

/-- A concrete sub-heading and body with eight bullet lines, used to witness
the per-subsection truncation bound. -/
def exC9Header : Chars := ("### Sub").toList

def exC9Body : Chars :=
  ("\nintro line\n* a1\n* a2\n* a3\n* a4\n* a5\n* a6\n* a7\n* a8\n").toList

/-- A state in which a run is already in flight. -/
def stBusy : SchedState := { stIdle with isRunning := true }

/-- The characters of the status word `Error`. -/
def errHeadChars : Chars := ("Error").toList

/-- The trigger-time list of the malformed-entry scenario. -/
def exTimes : List Chars := [("25:00").toList, ("09:30").toList]

theorem splitOnChar_ne_nil (sep : Char) (c : Chars) : splitOnChar sep c ≠ [] := by
  induction c with
  | nil => simp [splitOnChar]
  | cons hd tl ih =>
    simp only [splitOnChar]
    split
    · simp
    · match h : splitOnChar sep tl with
      | [] => exact absurd h ih
      | l :: ls => simp

theorem joinTerm_splitLines (c : Chars) : joinTerm (splitLines c) = c ++ ['\n'] := by
  induction c with
  | nil => simp [splitLines, splitOnChar, joinTerm]
  | cons hd tl ih =>
    simp only [splitLines, splitOnChar] at *
    by_cases h : hd = '\n'
    · subst h
      simp only [if_pos rfl, joinTerm, List.map_cons, List.flatten_cons] at *
      simp [ih]
    · simp only [if_neg h]
      match hsp : splitOnChar '\n' tl with
      | [] => exact absurd hsp (splitOnChar_ne_nil _ _)
      | l :: ls =>
        rw [hsp] at ih
        simp only [joinTerm, List.map_cons, List.flatten_cons, List.cons_append,
          List.append_assoc] at ih ⊢
        rw [ih]

theorem not_mem_of_mem_splitOnChar (sep : Char) (c : Chars) :
    ∀ l ∈ splitOnChar sep c, sep ∉ l := by
  induction c with
  | nil => intro l hl; simp [splitOnChar] at hl; simp [hl]
  | cons hd tl ih =>
    intro l hl
    simp only [splitOnChar] at hl
    by_cases h : hd = sep
    · rw [if_pos h] at hl
      rcases List.mem_cons.1 hl with h1 | h1
      · simp [h1]
      · exact ih l h1
    · rw [if_neg h] at hl
      match hsp : splitOnChar sep tl with
      | [] => exact absurd hsp (splitOnChar_ne_nil _ _)
      | x :: xs =>
        rw [hsp] at hl
        rcases List.mem_cons.1 hl with h1 | h1
        · subst h1
          intro hmem
          rcases List.mem_cons.1 hmem with h2 | h2
          · exact h h2.symm
          · exact ih x (by rw [hsp]; exact List.mem_cons_self _ _) h2
        · exact ih l (by rw [hsp]; exact List.mem_cons_of_mem _ h1)

theorem splitOnChar_append_cons (sep : Char) (pre t : Chars) (h : sep ∉ pre) :
    splitOnChar sep (pre ++ sep :: t) = pre :: splitOnChar sep t := by
  induction pre with
  | nil => simp [splitOnChar]
  | cons c cs ih =>
    have hc : ¬c = sep := fun hc => h (hc ▸ List.mem_cons_self _ _)
    have hcs : sep ∉ cs := fun hm => h (List.mem_cons_of_mem _ hm)
    simp only [List.cons_append, splitOnChar, if_neg hc, List.append_eq]
    rw [ih hcs]

theorem joinLines_splitLines (c : Chars) : joinLines (splitLines c) = c := by
  induction c with
  | nil => simp [splitLines, splitOnChar, joinLines]
  | cons hd tl ih =>
    simp only [splitLines, splitOnChar] at *
    by_cases h : hd = '\n'
    · subst h
      rw [if_pos rfl]
      match hsp : splitOnChar '\n' tl with
      | [] => exact absurd hsp (splitOnChar_ne_nil _ _)
      | l :: ls =>
        rw [hsp] at ih
        simp [joinLines, ih]
    · rw [if_neg h]
      match hsp : splitOnChar '\n' tl with
      | [] => exact absurd hsp (splitOnChar_ne_nil _ _)
      | l :: ls =>
        rw [hsp] at ih
        match ls with
        | [] => simp only [joinLines] at ih ⊢; rw [ih]
        | y :: ys =>
          simp only [joinLines] at ih ⊢
          simp only [List.cons_append, ih]

theorem splitLines_cons_of_not_mem (pre t : Chars) (h : '\n' ∉ pre) :
    splitLines (pre ++ '\n' :: t) = pre :: splitLines t :=
  splitOnChar_append_cons '\n' pre t h

theorem splitLines_joinLines_append (ls : List Chars) (t : Chars)
    (h : ∀ l ∈ ls, '\n' ∉ l) :
    splitLines (joinLines ls ++ '\n' :: t)
      = (if ls = [] then [[]] else ls) ++ splitLines t := by
  induction ls with
  | nil => simp [joinLines, splitLines, splitOnChar]
  | cons l rest ih =>
    match rest with
    | [] =>
      simp only [joinLines, if_neg (List.cons_ne_nil _ _), List.singleton_append]
      exact splitLines_cons_of_not_mem l t (h l (List.mem_cons_self _ _))
    | l2 :: rest2 =>
      simp only [joinLines, if_neg (List.cons_ne_nil _ _)]
      have hassoc : (l ++ '\n' :: joinLines (l2 :: rest2)) ++ '\n' :: t
          = l ++ '\n' :: (joinLines (l2 :: rest2) ++ '\n' :: t) := by
        simp [List.append_assoc]
      rw [hassoc, splitLines_cons_of_not_mem l _ (h l (List.mem_cons_self _ _)),
        ih (fun x hx => h x (List.mem_cons_of_mem _ hx)),
        if_neg (List.cons_ne_nil _ _)]
      simp

theorem reSplitLines_ne_nil (p : Chars → Bool) (lines : List Chars) :
    reSplitLines p lines ≠ [] := by
  induction lines with
  | nil => simp [reSplitLines]
  | cons l rest ih =>
    rcases rest with _ | ⟨x, xs⟩
    · simp only [reSplitLines]
      split <;> simp
    · simp only [reSplitLines]
      rcases hre : reSplitLines p (x :: xs) with _ | ⟨r, rs⟩
      · exact absurd hre ih
      · dsimp only
        split <;> simp

theorem flatten_reSplitLines (p : Chars → Bool) (lines : List Chars) :
    (reSplitLines p lines).flatten = joinLines lines := by
  induction lines with
  | nil => simp [reSplitLines, joinLines]
  | cons l rest ih =>
    rcases rest with _ | ⟨x, xs⟩
    · simp only [reSplitLines]
      split <;> simp [joinLines]
    · simp only [reSplitLines]
      rcases hre : reSplitLines p (x :: xs) with _ | ⟨r, rs⟩
      · exact absurd hre (reSplitLines_ne_nil _ _)
      · rw [hre] at ih
        have hjl : joinLines (l :: x :: xs) = l ++ '\n' :: joinLines (x :: xs) := rfl
        rw [hjl]
        dsimp only
        split
        · simp only [List.flatten_cons, List.nil_append, List.cons_append,
            List.append_assoc] at ih ⊢
          rw [ih]
        · simp only [List.flatten_cons, List.cons_append, List.append_assoc] at ih ⊢
          rw [ih]

theorem splitLoop_flatten (L : Nat) (lines : List Chars) :
    ∀ chunks current, (splitLoop L chunks current lines).flatten
      = chunks.flatten ++ current ++ joinTerm lines := by
  induction lines with
  | nil =>
    intro chunks current
    simp only [splitLoop, joinTerm, List.map_nil, List.flatten_nil, List.append_nil]
    split
    · simp [*]
    · simp
  | cons line rest ih =>
    intro chunks current
    simp only [splitLoop]
    split
    · rw [ih]
      simp [joinTerm, List.append_assoc]
    · rw [ih]
      simp [joinTerm, List.append_assoc]

theorem splitLoop_length_le (L : Nat) (lines : List Chars)
    (hl : ∀ l ∈ lines, l.length + 1 ≤ L) :
    ∀ chunks current, (∀ ch ∈ chunks, ch.length ≤ L) → current.length ≤ L →
      ∀ ch ∈ splitLoop L chunks current lines, ch.length ≤ L := by
  induction lines with
  | nil =>
    intro chunks current hch hcur ch hmem
    simp only [splitLoop] at hmem
    split at hmem
    · exact hch ch hmem
    · rcases List.mem_append.1 hmem with h | h
      · exact hch ch h
      · simp at h; subst h; exact hcur
  | cons line rest ih =>
    intro chunks current hch hcur ch hmem
    simp only [splitLoop] at hmem
    split at hmem
    · refine ih (fun l hl' => hl l (List.mem_cons_of_mem _ hl')) _ _ ?_ ?_ ch hmem
      · intro c hc
        rcases List.mem_append.1 hc with h | h
        · exact hch c h
        · simp at h; subst h; exact hcur
      · have := hl line (List.mem_cons_self _ _)
        simp only [List.length_append, List.length_cons, List.length_nil]
        omega
    · refine ih (fun l hl' => hl l (List.mem_cons_of_mem _ hl')) _ _ hch ?_ ch hmem
      rename_i hguard
      simp only [Nat.not_lt] at hguard
      simp only [List.length_append, List.length_cons, List.length_nil]
      omega

theorem splitLoop_last_newline (L : Nat) (lines : List Chars) :
    ∀ chunks current,
      (∀ ch ∈ chunks, ch = [] ∨ ch.getLast? = some '\n') →
      (current = [] ∨ current.getLast? = some '\n') →
      ∀ ch ∈ splitLoop L chunks current lines, ch = [] ∨ ch.getLast? = some '\n' := by
  induction lines with
  | nil =>
    intro chunks current hch hcur ch hmem
    simp only [splitLoop] at hmem
    split at hmem
    · exact hch ch hmem
    · rcases List.mem_append.1 hmem with h | h
      · exact hch ch h
      · simp at h; subst h; exact hcur
  | cons line rest ih =>
    intro chunks current hch hcur ch hmem
    simp only [splitLoop] at hmem
    split at hmem
    · refine ih _ _ ?_ ?_ ch hmem
      · intro c hc
        rcases List.mem_append.1 hc with h | h
        · exact hch c h
        · simp at h; subst h; exact hcur
      · right
        exact List.getLast?_concat _
    · refine ih _ _ hch ?_ ch hmem
      right
      rw [← List.append_assoc]
      exact List.getLast?_concat _

theorem split_content_flatten (c : Chars) (L : Nat) (h : L < c.length) :
    (split_content c L).flatten = c ++ ['\n'] := by
  rw [split_content, if_neg (by omega)]
  rw [splitLoop_flatten]
  simp [joinTerm_splitLines]

theorem split_content_length_le (c : Chars) (L : Nat)
    (hl : ∀ l ∈ splitLines c, l.length + 1 ≤ L) :
    ∀ ch ∈ split_content c L, ch.length ≤ L := by
  intro ch hmem
  rw [split_content] at hmem
  split at hmem
  · simp at hmem; subst hmem; assumption
  · exact splitLoop_length_le L (splitLines c) hl [] [] (by simp) (by simp) ch hmem

theorem split_content_line_aligned (c : Chars) (L : Nat) (h : L < c.length) :
    ∀ ch ∈ split_content c L, ch = [] ∨ ch.getLast? = some '\n' := by
  intro ch hmem
  rw [split_content, if_neg (by omega)] at hmem
  exact splitLoop_last_newline L (splitLines c) [] [] (by simp) (by simp) ch hmem

/-- C1: invoking the pipeline run entry point while `isRunning` is already
true returns immediately with no error, leaves `steps` and `status` (and the
whole run state) unchanged, and sends no notification. -/
theorem C1_concurrency_guard (env : PipelineEnv) (st : SchedState)
    (h : st.isRunning = true) :
    run_pipeline env st = (st, [], []) := by
  rw [run_pipeline, if_pos h]

theorem C1_witness : run_pipeline okEnv stBusy = (stBusy, [], []) :=
  C1_concurrency_guard okEnv stBusy (by decide)

/-- C2 counterexample: a successful run returns with `is_running` cleared but
`current_status` still `Completed`, not reset to `Idle` — the `finally` block
only clears `is_running`. -/
theorem C2_counterexample :
    (run_pipeline okEnv stIdle).1.currentStatus = statusCompleted
    ∧ statusCompleted ≠ statusIdle := by
  decide

/-- C2 (amended): for every run that actually starts, the `finally` phase
unconditionally clears `isRunning` before the entry point returns, whatever
the outcome; the status is left at its terminal value (for a successful run,
`Completed`) and is not reset to `Idle`. -/
theorem C2_finally_amended :
    (∀ (env : PipelineEnv) (st : SchedState), st.isRunning = false →
        (run_pipeline env st).1.isRunning = false)
    ∧ (run_pipeline okEnv stIdle).1.currentStatus = statusCompleted := by
  constructor
  · intro env st h
    simp only [run_pipeline, h, Bool.false_eq_true, if_false]
    split <;> rfl
  · decide

theorem C2_witness :
    stIdle.isRunning = false ∧ (run_pipeline okEnv stIdle).1.isRunning = false :=
  ⟨by decide, C2_finally_amended.1 okEnv stIdle (by decide)⟩

/-- C3 counterexample: with `C = "abcde\nxx"` and `L = 5`, no source line of
`C` exceeds `L` (the lines have lengths 5 and 2), yet `split(C, L)` produces
the chunk `"abcde\n"` of length 6 — the claimed `≤ L` bound fails as stated,
because a line of length exactly `L` still gets a newline appended. -/
theorem C3_counterexample :
    ¬ ((∀ ch ∈ split_content exC3 5, ch.length ≤ 5 ∨ ∃ l ∈ splitLines exC3, 5 < l.length)) := by
  decide

/-- C3 (amended): chunks never exceed the bound provided every source line
TOGETHER WITH ITS TERMINATING NEWLINE fits in the bound (`len(line)+1 ≤ L`;
a line of length exactly `L` already yields an oversized chunk of length
`L+1`); when splitting happens the concatenation of all chunks is exactly the
content with a newline appended after the final split line (so a content that
already ends in a newline gains one extra); chunks break only at line
boundaries (every non-empty chunk ends with a newline). -/
theorem C3_split_content_amended :
    (∀ (c : Chars) (L : Nat), (∀ l ∈ splitLines c, l.length + 1 ≤ L) →
        ∀ ch ∈ split_content c L, ch.length ≤ L)
    ∧ (∀ (c : Chars) (L : Nat), L < c.length →
        (split_content c L).flatten = c ++ ['\n'])
    ∧ (∀ (c : Chars) (L : Nat), L < c.length →
        ∀ ch ∈ split_content c L, ch = [] ∨ ch.getLast? = some '\n') :=
  ⟨split_content_length_le, split_content_flatten, split_content_line_aligned⟩

theorem C3_witness :
    (∀ ch ∈ split_content exC3 6, ch.length ≤ 6)
    ∧ (split_content exC3 6).flatten = exC3 ++ ['\n']
    ∧ (∀ ch ∈ split_content exC3 6, ch = [] ∨ ch.getLast? = some '\n') :=
  ⟨C3_split_content_amended.1 exC3 6 (by decide),
   C3_split_content_amended.2.1 exC3 6 (by decide),
   C3_split_content_amended.2.2 exC3 6 (by decide)⟩

/-- C4: when the content already fits in the bound, `split` returns exactly
the one-element list holding the unchanged content. -/
theorem C4_split_small (c : Chars) (L : Nat) (h : c.length ≤ L) :
    split_content c L = [c] := by
  rw [split_content, if_pos h]

theorem C4_witness : split_content exC3 100 = [exC3] :=
  C4_split_small exC3 100 (by decide)

/-- C10: with an empty webhook URL both `send_markdown` and `send_to_flow`
return normally without performing any HTTP request, for every converter,
post behaviour, title, content and payload. -/
theorem C10_empty_webhook_guard :
    (∀ (convert : Chars → Chars) (post : Nat → PostResult) (title content : Chars),
      send_markdown convert post [] title content = [])
    ∧ (∀ (post : PostResult) (p : FlowPayload), send_to_flow post [] p = []) :=
  ⟨fun _ _ _ _ => rfl, fun _ _ => rfl⟩

theorem parseCron_nil : parseCron [] = none := by decide

theorem apply_scheduleAux_mem_job :
    ∀ (times : List Chars) (i j : Nat) (t : Chars) (h m : Nat),
      times.get? j = some t → parseCron t = some (h, m) →
      (jobId (i + j), h, m) ∈ (apply_scheduleAux i times).1 := by
  intro times
  induction times with
  | nil => intro i j t h m hget; simp at hget
  | cons t0 rest ih =>
    intro i j t h m hget hparse
    match j with
    | 0 =>
      simp only [List.get?] at hget
      injection hget with hget
      subst hget
      simp only [apply_scheduleAux]
      by_cases he : t0.isEmpty = true
      · rw [List.isEmpty_iff] at he
        subst he
        rw [parseCron_nil] at hparse
        exact absurd hparse (by simp)
      · rw [if_neg he, hparse]
        simp
    | Nat.succ j' =>
      simp only [List.get?] at hget
      have hmem := ih (i + 1) j' t h m hget hparse
      have harith : i + 1 + j' = i + (j' + 1) := by omega
      rw [harith] at hmem
      simp only [apply_scheduleAux]
      by_cases he : t0.isEmpty = true
      · rw [if_pos he]; exact hmem
      · rw [if_neg he]
        rcases hp : parseCron t0 with _ | hm0
        · exact hmem
        · exact List.mem_cons_of_mem _ hmem

theorem apply_scheduleAux_length :
    ∀ (times : List Chars) (i : Nat),
      (apply_scheduleAux i times).1.length
        = (times.filter (fun t => (parseCron t).isSome)).length := by
  intro times
  induction times with
  | nil => intro i; simp [apply_scheduleAux]
  | cons t0 rest ih =>
    intro i
    simp only [apply_scheduleAux, List.filter_cons]
    by_cases he : t0.isEmpty = true
    · rw [if_pos he]
      rw [List.isEmpty_iff] at he
      subst he
      rw [parseCron_nil]
      simp [ih]
    · rw [if_neg he]
      rcases hp : parseCron t0 with _ | hm0
      · simp [hp, ih]
      · simp [hp, ih]

theorem apply_scheduleAux_log :
    ∀ (times : List Chars) (i j : Nat) (t : Chars),
      times.get? j = some t → t.isEmpty = false → parseCron t = none →
      invalidTimeMsg t ∈ (apply_scheduleAux i times).2 := by
  intro times
  induction times with
  | nil => intro i j t hget; simp at hget
  | cons t0 rest ih =>
    intro i j t hget hne hparse
    match j with
    | 0 =>
      simp only [List.get?] at hget
      injection hget with hget
      subst hget
      simp only [apply_scheduleAux]
      rw [if_neg (by simp [hne]), hparse]
      simp
    | Nat.succ j' =>
      simp only [List.get?] at hget
      have hmem := ih (i + 1) j' t hget hne hparse
      simp only [apply_scheduleAux]
      by_cases he : t0.isEmpty = true
      · rw [if_pos he]; exact hmem
      · rw [if_neg he]
        rcases hp : parseCron t0 with _ | hm0
        · exact List.mem_cons_of_mem _ hmem
        · exact hmem

/-- C7: `_apply_schedule` creates exactly one job, keyed by list position,
per entry that parses and validates as `HH:MM`; an entry that fails to parse
or validate is skipped with a logged message and does not abort the rest
(the loop body catches the `ValueError` and continues, so the function is
total and never raises); in particular `["25:00", "09:30"]` schedules exactly
the single job for `09:30` and logs exactly one rejection. -/
theorem C7_apply_schedule :
    (∀ (times : List Chars) (j : Nat) (t : Chars) (h m : Nat),
        times.get? j = some t → parseCron t = some (h, m) →
        (jobId j, h, m) ∈ (apply_schedule times).1)
    ∧ (∀ times : List Chars,
        (apply_schedule times).1.length
          = (times.filter (fun t => (parseCron t).isSome)).length)
    ∧ (∀ (times : List Chars) (j : Nat) (t : Chars),
        times.get? j = some t → t.isEmpty = false → parseCron t = none →
        invalidTimeMsg t ∈ (apply_schedule times).2)
    ∧ (apply_schedule exTimes).1 = [(jobId 1, 9, 30)]
    ∧ (apply_schedule exTimes).2 = [invalidTimeMsg (("25:00").toList)] := by
  refine ⟨?_, ?_, ?_, by decide, by decide⟩
  · intro times j t h m hget hparse
    have := apply_scheduleAux_mem_job times 0 j t h m hget hparse
    simpa [apply_schedule] using this
  · intro times
    exact apply_scheduleAux_length times 0
  · intro times j t hget hne hparse
    exact apply_scheduleAux_log times 0 j t hget hne hparse

theorem C7_witness :
    (jobId 1, 9, 30) ∈ (apply_schedule exTimes).1
    ∧ invalidTimeMsg (("25:00").toList) ∈ (apply_schedule exTimes).2 :=
  ⟨C7_apply_schedule.1 exTimes 1 (("09:30").toList) 9 30 (by decide) (by decide),
   C7_apply_schedule.2.2.1 exTimes 0 (("25:00").toList) (by decide) (by decide) (by decide)⟩

/-- C6 counterexample: with a fetch returning zero items the run appends the
`error` StepEntry and stops early, but its status is left at the stage label
`Generating Report...` — it is never set to an `Error` value, so the run does
not "terminate as Error" as claimed. -/
theorem C6_counterexample :
    (run_pipeline envEmptyFetch stIdle).1.currentStatus = statusGenerating
    ∧ errHeadChars.isPrefixOf ((run_pipeline envEmptyFetch stIdle).1.currentStatus.toList)
        = false := by
  decide

/-- C6 (amended): when the item fetch returns an empty set, the run appends an
`error` StepEntry and terminates early without invoking the filter, cluster,
deduplicate, rank, arXiv, report-generation or notification stages and without
sending anything; the status is left at the last stage label
(`Generating Report...`), not set to `Error`. -/
theorem C6_empty_fetch_amended (env : PipelineEnv) (st : SchedState)
    (h0 : st.isRunning = false)
    (h1 : env.initDb = .ok ()) (h2 : env.runAllCrawlers = .ok ())
    (h3 : env.fetchArticles = .ok []) :
    (run_pipeline env st).1.currentStatus = statusGenerating
    ∧ (run_pipeline env st).1.pipelineSteps.getLast?
        = some ⟨kindError, .text msgNoData, none⟩
    ∧ (run_pipeline env st).2.1 = []
    ∧ (run_pipeline env st).2.2 = [callInitDb, callCrawlers, callFetch] := by
  rw [run_pipeline, if_neg (by simp [h0])]
  simp only [startState, runTry, h1, phaseCrawl, h2, phaseFetch, h3, addStep,
    List.isEmpty_nil, if_true]
  simp [List.getLast?_concat]

theorem C6_witness :
    (run_pipeline envEmptyFetch stIdle).1.currentStatus = statusGenerating
    ∧ (run_pipeline envEmptyFetch stIdle).1.pipelineSteps.getLast?
        = some ⟨kindError, .text msgNoData, none⟩
    ∧ (run_pipeline envEmptyFetch stIdle).2.1 = []
    ∧ (run_pipeline envEmptyFetch stIdle).2.2 = [callInitDb, callCrawlers, callFetch] :=
  C6_empty_fetch_amended envEmptyFetch stIdle (by decide) rfl rfl rfl

theorem sendLoop_sends (env : PipelineEnv) (days : Nat) (rep : Chars) :
    ∀ (ws : List Chars) (i : Nat) (s : SchedState),
      (sendLoop env days rep ws i s).2 = ws.map (sendFor env days rep) := by
  intro ws
  induction ws with
  | nil => intro i s; rfl
  | cons w ws ih =>
    intro i s
    simp only [sendLoop, List.map_cons]
    rw [ih]

theorem sendLoop_steps (env : PipelineEnv) (days : Nat) (rep : Chars) :
    ∀ (ws : List Chars) (i : Nat) (s : SchedState),
      ∃ extra, (sendLoop env days rep ws i s).1.pipelineSteps
        = s.pipelineSteps ++ extra := by
  intro ws
  induction ws with
  | nil => intro i s; exact ⟨[], by simp [sendLoop]⟩
  | cons w ws ih =>
    intro i s
    simp only [sendLoop]
    rcases hse : env.sendExc i with _ | e
    · rcases ih (i + 1) s with ⟨extra, hex⟩
      exact ⟨extra, hex⟩
    · rcases ih (i + 1) (addStep s (.text (msgSendFail e)) kindError none) with ⟨extra, hex⟩
      refine ⟨[⟨kindError, .text (msgSendFail e), none⟩] ++ extra, ?_⟩
      rw [hex]
      simp [addStep]

theorem sendLoop_err_step (env : PipelineEnv) (days : Nat) (rep : Chars) :
    ∀ (ws : List Chars) (i : Nat) (s : SchedState) (j : Nat) (e : String),
      j < ws.length → env.sendExc (i + j) = some e →
      (⟨kindError, .text (msgSendFail e), none⟩ : StepEntry)
        ∈ (sendLoop env days rep ws i s).1.pipelineSteps := by
  intro ws
  induction ws with
  | nil => intro i s j e hj; simp at hj
  | cons w ws ih =>
    intro i s j e hj hse
    match j with
    | 0 =>
      simp only [Nat.add_zero] at hse
      simp only [sendLoop, hse]
      rcases sendLoop_steps env days rep ws (i + 1)
          (addStep s (.text (msgSendFail e)) kindError none) with ⟨extra, hex⟩
      rw [hex]
      apply List.mem_append_left
      simp [addStep]
    | Nat.succ j' =>
      have harith : i + (j' + 1) = (i + 1) + j' := by omega
      rw [harith] at hse
      simp only [sendLoop]
      rcases hse0 : env.sendExc i with _ | e0
      · exact ih (i + 1) s j' e (by simpa using hj) hse
      · exact ih (i + 1) _ j' e (by simpa using hj) hse

theorem completeRun_status (s : SchedState) (sends : List Send) (cs : List String) :
    (completeRun s sends cs).1.currentStatus = statusCompleted := rfl

theorem completeRun_steps (s : SchedState) (sends : List Send) (cs : List String) :
    (completeRun s sends cs).1.pipelineSteps
      = s.pipelineSteps ++ [⟨kindSuccess, .text msgAllDone, none⟩] := rfl

theorem sendPhase_status (env : PipelineEnv) (s : SchedState) (cs : List String)
    (rep : Chars) :
    (sendPhase env s cs rep).1.currentStatus = statusCompleted := by
  rw [sendPhase]
  split
  · rfl
  · rfl

theorem sendPhase_exc (env : PipelineEnv) (s : SchedState) (cs : List String)
    (rep : Chars) :
    (sendPhase env s cs rep).2.2.2 = none := by
  rw [sendPhase]
  split
  · rfl
  · rfl

theorem sendPhase_calls (env : PipelineEnv) (s : SchedState) (cs : List String)
    (rep : Chars) :
    (sendPhase env s cs rep).2.2.1 = cs := by
  rw [sendPhase]
  split
  · rfl
  · rfl

theorem sendPhase_sends (env : PipelineEnv) (s : SchedState) (cs : List String)
    (rep : Chars) :
    (sendPhase env s cs rep).2.1
      = s.feishuWebhooks.map (sendFor env s.daysToCrawl rep) := by
  rw [sendPhase]
  split
  · rename_i hw
    rw [List.isEmpty_iff] at hw
    simp [hw, completeRun]
  · simp only [completeRun]
    rw [sendLoop_sends]
    simp [addStep]

theorem sendPhase_err_step (env : PipelineEnv) (s : SchedState) (cs : List String)
    (rep : Chars) (i : Nat) (e : String)
    (hse : env.sendExc i = some e) (hi : i < s.feishuWebhooks.length) :
    (⟨kindError, .text (msgSendFail e), none⟩ : StepEntry)
      ∈ (sendPhase env s cs rep).1.pipelineSteps := by
  rw [sendPhase]
  split
  · rename_i hw
    rw [List.isEmpty_iff] at hw
    rw [hw] at hi
    simp at hi
  · simp only [completeRun, addStep]
    apply List.mem_append_left
    apply List.mem_append_left
    exact sendLoop_err_step env _ rep s.feishuWebhooks 0 _ i e
      (by simpa using hi) (by simpa using hse)

theorem runTry_success (env : PipelineEnv) (s0 : SchedState)
    (items filtered clustered deduped ranked : List Item) (papers : List String)
    (rep : Chars) (path : String)
    (h1 : env.initDb = .ok ()) (h2 : env.runAllCrawlers = .ok ())
    (h3 : env.fetchArticles = .ok items) (h4 : items.isEmpty = false)
    (h5 : env.step1Filter items = .ok filtered)
    (h6 : env.step2Cluster filtered = .ok clustered)
    (h7 : env.step3Deduplicate clustered = .ok deduped)
    (h8 : env.step4Rank deduped = .ok ranked)
    (h9 : env.step5FetchArxiv ranked = .ok papers)
    (h10 : env.generateFinalReport ranked papers = .ok (some rep))
    (h11 : rep.isEmpty = false)
    (h12 : env.saveReportToFile rep = .ok path)
    (h13 : env.markArticlesAsReported ranked path = .ok ()) :
    (runTry env s0).1.currentStatus = statusCompleted
    ∧ (runTry env s0).2.1 = s0.feishuWebhooks.map (sendFor env s0.daysToCrawl rep)
    ∧ (runTry env s0).2.2.2 = none
    ∧ (∀ i e, env.sendExc i = some e → i < s0.feishuWebhooks.length →
        (⟨kindError, .text (msgSendFail e), none⟩ : StepEntry)
          ∈ (runTry env s0).1.pipelineSteps) := by
  simp only [runTry, h1]
  simp only [phaseCrawl, h2]
  simp only [phaseFetch, h3, h4, Bool.false_eq_true, if_false]
  simp only [phaseFilter, h5]
  simp only [phaseCluster, h6]
  simp only [phaseDedup, h7]
  simp only [phaseRank, h8]
  simp only [phaseArxiv, h9]
  simp only [phaseGenerate, h10]
  simp only [afterReport, reportTruthy, h11, Bool.not_false, if_true,
    Option.getD_some, h12, h13]
  refine ⟨sendPhase_status env _ _ rep, ?_, sendPhase_exc env _ _ rep, ?_⟩
  · rw [sendPhase_sends]
    simp [addStep]
  · intro i e hse hi
    exact sendPhase_err_step env _ _ rep i e hse (by simpa [addStep] using hi)

theorem run_pipeline_of_none (env : PipelineEnv) (st : SchedState)
    (h0 : st.isRunning = false)
    (hnone : (runTry env (startState st)).2.2.2 = none) :
    run_pipeline env st
      = ({ (runTry env (startState st)).1 with isRunning := false },
         (runTry env (startState st)).2.1, (runTry env (startState st)).2.2.1) := by
  rw [run_pipeline, if_neg (by simp [h0])]
  rcases h : runTry env (startState st) with ⟨s1, sends, cls, exc⟩
  rw [h] at hnone
  have hexc : exc = none := hnone
  subst hexc
  rfl

theorem sendChunks_length (post : Nat → PostResult) :
    ∀ (chunks : List Chars) (i : Nat),
      (sendChunks post chunks i).length = chunks.length := by
  intro chunks
  induction chunks with
  | nil => intro i; rfl
  | cons c rest ih => intro i; simp [sendChunks, ih]

/-- C5: once the pipeline has produced a report, a delivery failure at one
destination (the per-destination exception injected by `sendExc`) is caught
and logged as an `error` step, does not propagate (the run still finishes
with status `Completed`, not `Error`), and does not prevent the attempts to
the remaining destinations (exactly one notification per configured webhook
is still produced); inside `send_markdown` itself every chunk POST is likewise
attempted whatever the per-chunk outcomes are. -/
theorem C5_delivery_isolation (env : PipelineEnv) (st : SchedState)
    (items filtered clustered deduped ranked : List Item) (papers : List String)
    (rep : Chars) (path : String)
    (h0 : st.isRunning = false)
    (h1 : env.initDb = .ok ()) (h2 : env.runAllCrawlers = .ok ())
    (h3 : env.fetchArticles = .ok items) (h4 : items.isEmpty = false)
    (h5 : env.step1Filter items = .ok filtered)
    (h6 : env.step2Cluster filtered = .ok clustered)
    (h7 : env.step3Deduplicate clustered = .ok deduped)
    (h8 : env.step4Rank deduped = .ok ranked)
    (h9 : env.step5FetchArxiv ranked = .ok papers)
    (h10 : env.generateFinalReport ranked papers = .ok (some rep))
    (h11 : rep.isEmpty = false)
    (h12 : env.saveReportToFile rep = .ok path)
    (h13 : env.markArticlesAsReported ranked path = .ok ()) :
    (run_pipeline env st).1.currentStatus = statusCompleted
    ∧ (run_pipeline env st).2.1.length = st.feishuWebhooks.length
    ∧ (∀ i e, env.sendExc i = some e → i < st.feishuWebhooks.length →
        (⟨kindError, .text (msgSendFail e), none⟩ : StepEntry)
          ∈ (run_pipeline env st).1.pipelineSteps)
    ∧ (∀ (convert : Chars → Chars) (post : Nat → PostResult) (url title content : Chars),
        url ≠ [] →
        (send_markdown convert post url title content).length
          = (split_content (convert content) 40000).length) := by
  obtain ⟨hA, hB, hC, hD⟩ := runTry_success env (startState st) items filtered clustered
    deduped ranked papers rep path h1 h2 h3 h4 h5 h6 h7 h8 h9 h10 h11 h12 h13
  have hglue := run_pipeline_of_none env st h0 hC
  have e1 : (run_pipeline env st).1.currentStatus
      = (runTry env (startState st)).1.currentStatus := by rw [hglue]
  have e2 : (run_pipeline env st).2.1 = (runTry env (startState st)).2.1 := by rw [hglue]
  have e3 : (run_pipeline env st).1.pipelineSteps
      = (runTry env (startState st)).1.pipelineSteps := by rw [hglue]
  refine ⟨?_, ?_, ?_, ?_⟩
  · rw [e1]; exact hA
  · rw [e2, hB]; simp [startState]
  · intro i e hse hi
    rw [e3]
    exact hD i e hse (by simpa [startState] using hi)
  · intro convert post url title content hurl
    rw [send_markdown, if_neg (by simpa [List.isEmpty_iff] using hurl)]
    exact sendChunks_length post _ 0

theorem C5_witness :
    (run_pipeline okEnv stIdle).1.currentStatus = statusCompleted
    ∧ (run_pipeline okEnv stIdle).2.1.length = stIdle.feishuWebhooks.length
    ∧ ((send_markdown (fun c => c) (fun _ => .response 0) cardUrlEx [] okReport).length
        = (split_content okReport 40000).length) :=
  ⟨(C5_delivery_isolation okEnv stIdle [itemA] [itemA] [itemA] [itemA] [itemA] []
      okReport outPath (by decide) rfl rfl rfl rfl rfl rfl rfl rfl rfl rfl
      (by decide) rfl rfl).1,
   (C5_delivery_isolation okEnv stIdle [itemA] [itemA] [itemA] [itemA] [itemA] []
      okReport outPath (by decide) rfl rfl rfl rfl rfl rfl rfl rfl rfl rfl
      (by decide) rfl rfl).2.1,
   (C5_delivery_isolation okEnv stIdle [itemA] [itemA] [itemA] [itemA] [itemA] []
      okReport outPath (by decide) rfl rfl rfl rfl rfl rfl rfl rfl rfl rfl
      (by decide) rfl rfl).2.2.2 (fun c => c) (fun _ => .response 0) cardUrlEx []
      okReport (by decide)⟩

/-- C8 counterexample: the flow payload's section count is
`report_content.count("## ")`, which also matches the `"## "` inside a
`### ` heading — for the report `"## A\n### B\n"` the payload carries 2 while
the number of second-level headings is 1, so "section count equals the number
of second-level headings" is false as stated. -/
theorem C8_counterexample :
    (run_pipeline envC8 stFlowOnly).2.1
      = [Send.flow flowUrlEx (flowDocTitle 1 envC8.today) (countSubstr h2Pat reportC8)
          envC8.nowTs (reportTypeLabel 1) reportC8]
    ∧ countSubstr h2Pat reportC8 = 2
    ∧ h2LineCount reportC8 = 1 := by
  decide

/-- C8 (amended): every flow-style destination receives a structured payload
whose section count is the number of non-overlapping occurrences of the
substring `"## "` in the unformatted report (which can exceed the number of
second-level headings) and whose text field is the raw report content, not
passed through the notification formatter. -/
theorem C8_flow_payload_amended (env : PipelineEnv) (st : SchedState)
    (items filtered clustered deduped ranked : List Item) (papers : List String)
    (rep : Chars) (path : String)
    (h0 : st.isRunning = false)
    (h1 : env.initDb = .ok ()) (h2 : env.runAllCrawlers = .ok ())
    (h3 : env.fetchArticles = .ok items) (h4 : items.isEmpty = false)
    (h5 : env.step1Filter items = .ok filtered)
    (h6 : env.step2Cluster filtered = .ok clustered)
    (h7 : env.step3Deduplicate clustered = .ok deduped)
    (h8 : env.step4Rank deduped = .ok ranked)
    (h9 : env.step5FetchArxiv ranked = .ok papers)
    (h10 : env.generateFinalReport ranked papers = .ok (some rep))
    (h11 : rep.isEmpty = false)
    (h12 : env.saveReportToFile rep = .ok path)
    (h13 : env.markArticlesAsReported ranked path = .ok ()) :
    ∀ (w : Chars) (title : String) (tt : Nat) (ts rt : String) (txt : Chars),
      Send.flow w title tt ts rt txt ∈ (run_pipeline env st).2.1 →
      tt = countSubstr h2Pat rep ∧ txt = rep := by
  obtain ⟨hA, hB, hC, hD⟩ := runTry_success env (startState st) items filtered clustered
    deduped ranked papers rep path h1 h2 h3 h4 h5 h6 h7 h8 h9 h10 h11 h12 h13
  have hglue := run_pipeline_of_none env st h0 hC
  have e2 : (run_pipeline env st).2.1 = (runTry env (startState st)).2.1 := by rw [hglue]
  intro w title tt ts rt txt hmem
  rw [e2, hB] at hmem
  rcases List.mem_map.1 hmem with ⟨w', hw', heq⟩
  rw [sendFor] at heq
  split at heq
  · simp only [Send.flow.injEq] at heq
    exact ⟨heq.2.2.1.symm, heq.2.2.2.2.2.symm⟩
  · exact absurd heq (by simp)

theorem C8_witness :
    (2 : Nat) = countSubstr h2Pat reportC8 ∧ reportC8 = reportC8 :=
  C8_flow_payload_amended envC8 stFlowOnly [itemA] [itemA] [itemA] [itemA] [itemA] []
    reportC8 outPath (by decide) rfl rfl rfl rfl rfl rfl rfl rfl rfl rfl
    (by decide) rfl rfl
    flowUrlEx (flowDocTitle 1 envC8.today) 2 envC8.nowTs (reportTypeLabel 1) reportC8
    (by decide)

theorem pyStrip_cons_of_not_ws (c : Char) (t : Chars) (hc : c.isWhitespace = false) :
    ∃ u, pyStrip (c :: t) = c :: u := by
  rw [pyStrip]
  rw [List.dropWhile_cons, if_neg (by simp [hc])]
  rw [List.reverse_cons, List.dropWhile_append]
  split
  · rw [List.dropWhile_cons, if_neg (by simp [hc])]
    exact ⟨[], rfl⟩
  · exact ⟨(t.reverse.dropWhile Char.isWhitespace).reverse, by simp⟩

theorem isSubHeader_not_link (hd : Chars) (hs : isSubHeader hd = true) :
    isLinkLine hd = false ∧ isNonLinkLine hd = true := by
  rcases hd with _ | ⟨c1, _ | ⟨c2, _ | ⟨c3, rest⟩⟩⟩
  · simp [isSubHeader] at hs
  · simp [isSubHeader] at hs
  · simp [isSubHeader] at hs
  · simp only [isSubHeader, Bool.and_eq_true, beq_iff_eq] at hs
    obtain ⟨⟨⟨⟨h1, h2⟩, h3⟩, -⟩, -⟩ := hs
    subst h1; subst h2; subst h3
    obtain ⟨u, hu⟩ := pyStrip_cons_of_not_ws '#' ('#' :: '#' :: rest) (by decide)
    constructor
    · rw [isLinkLine, hu]
      rfl
    · rw [isNonLinkLine, isLinkLine, hu]
      rfl

theorem mem_splitLines_no_newline (c : Chars) :
    ∀ l ∈ splitLines c, '\n' ∉ l :=
  not_mem_of_mem_splitOnChar '\n' c

theorem nonLink_not_link (l : Chars) (h : isNonLinkLine l = true) :
    isLinkLine l = false := by
  rw [isNonLinkLine] at h
  rcases Bool.and_eq_true_iff.1 h with ⟨h1, _⟩
  simpa using h1

theorem link_not_nonLink (l : Chars) (h : isLinkLine l = true) :
    isNonLinkLine l = false := by
  rw [isNonLinkLine, h]
  rfl

theorem isLinkLine_nil : isLinkLine [] = false := rfl

theorem isNonLinkLine_nil : isNonLinkLine [] = false := rfl

theorem splitLines_processSubsection (limit : Nat) (header body : Chars)
    (hh : '\n' ∉ header) :
    splitLines (processSubsection limit header body)
      = header
        :: ((if ((splitLines body).filter isLinkLine).take limit = []
             then [([] : Chars)]
             else ((splitLines body).filter isLinkLine).take limit)
          ++ (if ((splitLines body).filter isNonLinkLine).isEmpty
              then [([] : Chars), []]
              else (splitLines body).filter isNonLinkLine ++ [[], []])) := by
  have hfreeL5 : ∀ l ∈ ((splitLines body).filter isLinkLine).take limit, '\n' ∉ l :=
    fun l hl => mem_splitLines_no_newline body l
      (List.mem_of_mem_filter (List.take_subset _ _ hl))
  have hfreeNL : ∀ l ∈ (splitLines body).filter isNonLinkLine, '\n' ∉ l :=
    fun l hl => mem_splitLines_no_newline body l (List.mem_of_mem_filter hl)
  simp only [processSubsection]
  by_cases hnl : ((splitLines body).filter isNonLinkLine).isEmpty = true
  · rw [if_pos hnl, if_pos hnl, List.nil_append,
      splitLines_cons_of_not_mem header _ hh,
      splitLines_joinLines_append _ _ hfreeL5]
    rfl
  · rw [if_neg hnl, if_neg hnl]
    have hassoc : (joinLines ((splitLines body).filter isNonLinkLine) ++ ['\n']) ++ ['\n']
        = joinLines ((splitLines body).filter isNonLinkLine) ++ '\n' :: ['\n'] := by
      simp
    have hNLne : ¬((splitLines body).filter isNonLinkLine = []) := by
      simpa [List.isEmpty_iff] using hnl
    rw [hassoc, splitLines_cons_of_not_mem header _ hh,
      splitLines_joinLines_append _ _ hfreeL5,
      splitLines_joinLines_append _ _ hfreeNL,
      if_neg hNLne]
    rfl

theorem processSubsection_link_count (limit : Nat) (header body : Chars)
    (hh : '\n' ∉ header) (hhead : isLinkLine header = false) :
    (splitLines (processSubsection limit header body)).countP isLinkLine ≤ limit := by
  rw [splitLines_processSubsection limit header body hh,
    List.countP_cons_of_neg _ _ (by simp [hhead]), List.countP_append]
  have hL5 : (if ((splitLines body).filter isLinkLine).take limit = []
      then [([] : Chars)]
      else ((splitLines body).filter isLinkLine).take limit).countP isLinkLine ≤ limit := by
    split
    · simp [isLinkLine_nil]
    · calc (((splitLines body).filter isLinkLine).take limit).countP isLinkLine
          ≤ (((splitLines body).filter isLinkLine).take limit).length :=
            List.countP_le_length _
        _ ≤ limit := List.length_take_le _ _
  have hNL : (if ((splitLines body).filter isNonLinkLine).isEmpty
      then [([] : Chars), []]
      else (splitLines body).filter isNonLinkLine ++ [[], []]).countP isLinkLine = 0 := by
    rw [List.countP_eq_zero]
    intro a ha
    split at ha
    · rcases List.mem_cons.1 ha with h | h
      · subst h; simp [isLinkLine_nil]
      · simp at h; subst h; simp [isLinkLine_nil]
    · rcases List.mem_append.1 ha with h | h
      · have := List.of_mem_filter h
        simp [nonLink_not_link a this]
      · rcases List.mem_cons.1 h with h' | h'
        · subst h'; simp [isLinkLine_nil]
        · simp at h'; subst h'; simp [isLinkLine_nil]
  omega

theorem processSubsection_nonlink_filter (limit : Nat) (header body : Chars)
    (hh : '\n' ∉ header) (hheadNL : isNonLinkLine header = true) :
    (splitLines (processSubsection limit header body)).filter isNonLinkLine
      = header :: (splitLines body).filter isNonLinkLine := by
  rw [splitLines_processSubsection limit header body hh,
    List.filter_cons_of_pos hheadNL, List.filter_append]
  have hX : (if ((splitLines body).filter isLinkLine).take limit = []
      then [([] : Chars)]
      else ((splitLines body).filter isLinkLine).take limit).filter isNonLinkLine = [] := by
    rw [List.filter_eq_nil_iff]
    intro a ha
    split at ha
    · simp at ha; subst ha; simp [isNonLinkLine_nil]
    · have hlink := List.of_mem_filter (List.take_subset _ _ ha)
      simp [link_not_nonLink a hlink]
  have hY : (if ((splitLines body).filter isNonLinkLine).isEmpty
      then [([] : Chars), []]
      else (splitLines body).filter isNonLinkLine ++ [[], []]).filter isNonLinkLine
      = (splitLines body).filter isNonLinkLine := by
    split
    · rename_i hempty
      rw [List.isEmpty_iff] at hempty
      rw [hempty]
      simp [isNonLinkLine_nil]
    · rw [List.filter_append]
      have h1 : ((splitLines body).filter isNonLinkLine).filter isNonLinkLine
          = (splitLines body).filter isNonLinkLine := by
        rw [List.filter_eq_self]
        intro a ha
        exact List.of_mem_filter ha
      have h2 : ([([] : Chars), []]).filter isNonLinkLine = [] := by
        simp [isNonLinkLine_nil]
      rw [h1, h2, List.append_nil]
  rw [hX, hY, List.nil_append]

theorem limit_reference_links_front (content : Chars) (limit : Nat)
    (hc : containsSubstr content refMarker = true)
    (hl : 3 ≤ (refParts content).length) :
    (∃ tail, limit_reference_links content limit
        = beforeRef content ++ refHeaderOf content ++ tail)
    ∧ content = beforeRef content ++ refHeaderOf content ++ refBodyOf content := by
  have hrev : ∃ a b c rest, (refParts content).reverse = a :: b :: c :: rest := by
    rcases h : (refParts content).reverse with _ | ⟨a, _ | ⟨b, _ | ⟨c, rest⟩⟩⟩
    · have hlen := congrArg List.length h
      simp only [List.length_reverse, List.length_cons, List.length_nil] at hlen
      omega
    · have hlen := congrArg List.length h
      simp only [List.length_reverse, List.length_cons, List.length_nil] at hlen
      omega
    · have hlen := congrArg List.length h
      simp only [List.length_reverse, List.length_cons, List.length_nil] at hlen
      omega
    · exact ⟨a, b, c, rest, rfl⟩
  obtain ⟨a, b, c, rest, hrev⟩ := hrev
  have hXb : refParts content = (((c :: rest).reverse ++ [b]) ++ [a]) := by
    rw [← List.reverse_reverse (refParts content), hrev]
    simp
  have hbr : beforeRef content = ((c :: rest).reverse).flatten := by
    rw [beforeRef, hXb, List.dropLast_concat, List.dropLast_concat]
  have hrh : refHeaderOf content = b := by
    rw [refHeaderOf, hXb, List.dropLast_concat, List.getLastD_concat]
  have hrb : refBodyOf content = a := by
    rw [refBodyOf, hXb, List.getLastD_concat]
  have hrev' : (reSplitLines isRefHeader (splitLines content)).reverse
      = a :: b :: c :: rest := hrev
  constructor
  · rw [limit_reference_links, if_pos hc, hrev']
    dsimp only
    rcases hsub : reSplitLines isSubHeader (splitLines a) with _ | ⟨first, restSub⟩
    · exact absurd hsub (reSplitLines_ne_nil _ _)
    · refine ⟨first ++ processPairs limit restSub, ?_⟩
      dsimp only
      rw [hbr, hrh]
      simp [List.append_assoc]
  · have hflat : content = (refParts content).flatten := by
      rw [refParts, flatten_reSplitLines, joinLines_splitLines]
    rw [hbr, hrh, hrb]
    rw [hflat, hXb]
    simp

/-- C9: reference truncation with `N = 5` leaves at most 5 bullet lines in
each processed sub-section (a sub-heading with 8 bullets yields exactly 5 —
witnessed on the concrete document `exC9`), keeps the sub-heading line and the
sequence of non-list lines of each sub-section unchanged (the non-list lines
are regrouped after the bullets but individually intact and in order), and
reproduces everything before the further-reading header verbatim as a prefix
of the output. -/
theorem C9_reference_truncation :
    (∀ header body : Chars, isSubHeader header = true → '\n' ∉ header →
        ((splitLines (processSubsection 5 header body)).countP isLinkLine ≤ 5
          ∧ (splitLines (processSubsection 5 header body)).filter isNonLinkLine
              = header :: (splitLines body).filter isNonLinkLine))
    ∧ (∀ content : Chars, containsSubstr content refMarker = true →
        3 ≤ (refParts content).length →
        (∃ tail, limit_reference_links content 5
            = beforeRef content ++ refHeaderOf content ++ tail)
        ∧ content = beforeRef content ++ refHeaderOf content ++ refBodyOf content)
    ∧ (splitLines (limit_reference_links exC9 5)).countP isLinkLine = 5 := by
  refine ⟨?_, ?_, by decide⟩
  · intro header body hs hh
    obtain ⟨hL, hNL⟩ := isSubHeader_not_link header hs
    exact ⟨processSubsection_link_count 5 header body hh hL,
           processSubsection_nonlink_filter 5 header body hh hNL⟩
  · intro content hc hl
    exact limit_reference_links_front content 5 hc hl

theorem C9_witness :
    ((splitLines (processSubsection 5 exC9Header exC9Body)).countP isLinkLine ≤ 5
      ∧ (splitLines (processSubsection 5 exC9Header exC9Body)).filter isNonLinkLine
          = exC9Header :: (splitLines exC9Body).filter isNonLinkLine)
    ∧ ((∃ tail, limit_reference_links exC9 5
          = beforeRef exC9 ++ refHeaderOf exC9 ++ tail)
        ∧ exC9 = beforeRef exC9 ++ refHeaderOf exC9 ++ refBodyOf exC9) :=
  ⟨C9_reference_truncation.1 exC9Header exC9Body (by decide) (by decide),
   C9_reference_truncation.2.1 exC9 (by decide) (by decide)⟩
